import Mathlib

set_option maxRecDepth 100000

/-!
Shallow embedding of the content-pipeline utilities of a static blog
repository, together with proofs checking the repository's specification
against the code.

Strings are modelled as `List Char` (JavaScript strings, restricted to the
code points the relevant functions inspect).  JavaScript `number` results of
the utilities under study are all small non-negative integers, modelled as
`Nat`; epoch-millisecond timestamps are modelled as `Int`.

Sources embedded below:
* `src/utils/blog.ts`            — namespace `Blog`
* the security utility module (`calculateReadingTime`, `formatDate`,
  `generateExcerpt`, `sanitizeSlug`, `sanitizeTags`) — namespace `Utils`
* the content collection schema (`defineCollection` / zod object)
  — `parseBlogData`
-/

/-! ### Character classes (ASCII fragment of the JavaScript regex classes) -/

/-- JavaScript regex `\s` (whitespace), restricted to the Latin-1 range:
space, tab, line feed, vertical tab, form feed, carriage return, NBSP. -/
def isWs (c : Char) : Bool :=
  c = ' ' || c = '\t' || c = '\n' || c = '\x0b' || c = '\x0c' || c = '\r' || c = '\u00A0'

/-- Lowercase ASCII letter `[a-z]`. -/
def isLowerAlpha (c : Char) : Bool := decide (97 ≤ c.toNat ∧ c.toNat ≤ 122)

/-- Uppercase ASCII letter `[A-Z]`. -/
def isUpperAlpha (c : Char) : Bool := decide (65 ≤ c.toNat ∧ c.toNat ≤ 90)

/-- ASCII digit `[0-9]`. -/
def isDigitC (c : Char) : Bool := decide (48 ≤ c.toNat ∧ c.toNat ≤ 57)

/-- JavaScript regex `\w`, i.e. `[A-Za-z0-9_]`. -/
def isWordChar (c : Char) : Bool :=
  isUpperAlpha c || isLowerAlpha c || isDigitC c || c = '_'

/-- The character class `[a-z0-9-]` used by the slug sanitizer. -/
def isSlugChar (c : Char) : Bool := isLowerAlpha c || isDigitC c || c = '-'

/-- Lowercase alphanumeric `[a-z0-9]`. -/
def isAlnumLower (c : Char) : Bool := isLowerAlpha c || isDigitC c

/-- JavaScript `String.prototype.toLowerCase`, on the ASCII range (the only
range the embedded call sites can distinguish): maps `A`–`Z` to `a`–`z` and
leaves every other character unchanged. -/
def jsToLower (c : Char) : Char :=
  if isUpperAlpha c then Char.ofNat (c.toNat + 32) else c

/-! ### JavaScript `trim` and `split(/\s+/)` -/

/-- Remove a trailing whitespace run (the right half of `String.prototype.trim`). -/
def trimRight : List Char → List Char
  | [] => []
  | c :: cs =>
    match trimRight cs with
    | [] => if isWs c then [] else [c]
    | t => c :: t

/-- JavaScript `String.prototype.trim` (ASCII whitespace model). -/
def jsTrim (l : List Char) : List Char := (trimRight l).dropWhile isWs

/-- Worker for `jsSplitWs`.  `prevWs` records whether the previous character
belonged to a separator run (so that a whitespace run is consumed as a single
separator), `acc` holds the current fragment reversed. -/
def splitWsAux : Bool → List Char → List Char → List (List Char)
  | _, acc, [] => [acc.reverse]
  | prevWs, acc, c :: cs =>
    if isWs c then
      if prevWs then splitWsAux true acc cs
      else acc.reverse :: splitWsAux true [] cs
    else splitWsAux false (c :: acc) cs

/-- JavaScript `str.split(/\s+/)`: fragments between maximal whitespace runs,
including an empty leading fragment when the string starts with whitespace,
an empty trailing fragment when it ends with whitespace, and `[""]` for the
empty string. -/
def jsSplitWs (l : List Char) : List (List Char) := splitWsAux false [] l

/-- Length of `str.split(/\s+/)` (the `words` count of the reading-time code). -/
def jsSplitCount (l : List Char) : Nat := (jsSplitWs l).length

/-- Number of maximal whitespace runs, starting from the separator-state flag
`prevWs` (`wsRunsAux false l` counts the whitespace runs of `l`). -/
def wsRunsAux : Bool → List Char → Nat
  | _, [] => 0
  | prevWs, c :: cs =>
    if isWs c then (if prevWs then 0 else 1) + wsRunsAux true cs
    else wsRunsAux false cs

/-- Number of maximal non-whitespace runs (words), starting from the
in-word-state flag `prevNonWs`. -/
def runCountAux : Bool → List Char → Nat
  | _, [] => 0
  | prevNonWs, c :: cs =>
    if isWs c then runCountAux false cs
    else (if prevNonWs then 0 else 1) + runCountAux true cs

/-- Number of maximal non-whitespace runs of a string: the word count in the
sense of "split the text on whitespace runs and count the words". -/
def wordRuns (l : List Char) : Nat := runCountAux false l

/-- Ceiling division on `Nat` (JavaScript `Math.ceil(a / b)` for non-negative
integer `a` and positive integer `b`). -/
def jsCeilDiv (a b : Nat) : Nat := (a + b - 1) / b

namespace Utils

/-- Embeds `calculateReadingTime` of the security utility module:
slice the content to 100000 characters, `trim().split(/\s+/).length`,
`Math.ceil(words / 200)`, `Math.max(1, readingTime)`. -/
def calculateReadingTime (content : List Char) : Nat :=
  let safeContent := content.take 100000
  let words := jsSplitCount (jsTrim safeContent)
  let readingTime := jsCeilDiv words 200
  max 1 readingTime

end Utils

namespace Blog

/-- Embeds `calculateReadingTime` of `src/utils/blog.ts`:
`content.trim().split(/\s+/).length`, then `Math.ceil(words / 200)` —
no length cap and no explicit floor at 1. -/
def calculateReadingTime (content : List Char) : Nat :=
  jsCeilDiv (jsSplitCount (jsTrim content)) 200

end Blog

/-- Reference definition of reading time, written from the specification
wording: truncate the body to at most 100000 characters, count words by
splitting on whitespace runs, divide by 200 words per minute, round up, and
floor the result at 1. -/
def readingTimeRef (body : List Char) : Nat :=
  max 1 (jsCeilDiv (wordRuns (body.take 100000)) 200)

/-! ### Excerpt generation -/

/-- Drop characters up to and including the first `>`; `none` when no `>`
occurs (so the regex `<[^>]*>` has no match starting at the `<`). -/
def afterGt : List Char → Option (List Char)
  | [] => none
  | c :: cs => if c = '>' then some cs else afterGt cs

/-- Fuelled worker for `stripTags`; the fuel (instantiated with the input
length, which bounds the number of steps) keeps the recursion structural. -/
def stripTagsFuel : Nat → List Char → List Char
  | 0, l => l
  | _ + 1, [] => []
  | fuel + 1, c :: cs =>
    if c = '<' then
      match afterGt cs with
      | some rest => stripTagsFuel fuel rest
      | none => c :: cs
    else c :: stripTagsFuel fuel cs

/-- JavaScript `content.replace(/<[^>]*>/g, '')`: remove every `<...>` span;
a `<` with no later `>` is kept verbatim along with the rest. -/
def stripTags (l : List Char) : List Char := stripTagsFuel l.length l

/-- Character class kept by `replace(/[^\w\s.,!?-]/g, '')`: word characters,
whitespace, and the punctuation `. , ! ? -`. -/
def keepExcerptChar (c : Char) : Bool :=
  isWordChar c || isWs c || c = '.' || c = ',' || c = '!' || c = '?' || c = '-'

/-- The `plainText` local of `generateExcerpt`: strip tags, strip the
disallowed characters, trim. -/
def plainExcerptText (content : List Char) : List Char :=
  jsTrim ((stripTags content).filter keepExcerptChar)

/-- JavaScript `str.lastIndexOf(' ')`, as an `Option Nat` (`none` for `-1`). -/
def lastSpaceIdx : List Char → Option Nat
  | [] => none
  | c :: cs =>
    match lastSpaceIdx cs with
    | some j => some (j + 1)
    | none => if c = ' ' then some 0 else none

/-- The ellipsis marker `'...'` appended by `generateExcerpt`. -/
def ellipsis : List Char := ['.', '.', '.']

/-- Embeds `generateExcerpt` of the security utility module.  When the
cleaned text exceeds `maxLength`, it is cut at `maxLength`; if the truncated
window contains a space at a positive index the cut backs up to the last
space (`lastIndexOf(' ')`), otherwise the hard cut stands; `'...'` is
appended in either case. -/
def generateExcerpt (content : List Char) (maxLength : Nat) : List Char :=
  if (plainExcerptText content).length ≤ maxLength then plainExcerptText content
  else
    match lastSpaceIdx ((plainExcerptText content).take maxLength) with
    | some j =>
      if 0 < j then ((plainExcerptText content).take maxLength).take j ++ ellipsis
      else ((plainExcerptText content).take maxLength) ++ ellipsis
    | none => ((plainExcerptText content).take maxLength) ++ ellipsis

/-! ### Slug sanitizer -/

/-- Worker for `collapseDashes`: `prevDash` records whether the previously
emitted character was a `-`, so that a run of dashes is emitted once. -/
def collapseDashesAux : Bool → List Char → List Char
  | _, [] => []
  | prevDash, c :: cs =>
    if c = '-' then
      if prevDash then collapseDashesAux true cs
      else '-' :: collapseDashesAux true cs
    else c :: collapseDashesAux false cs

/-- JavaScript dash-run collapse, "replace dash-plus globally with a single dash". -/
def collapseDashes (l : List Char) : List Char := collapseDashesAux false l

/-- Drop a single leading dash (the `^-` alternative of `replace(/^-|-$/g, '')`). -/
def dropOneLeadingDash : List Char → List Char
  | [] => []
  | c :: cs => if c = '-' then cs else c :: cs

/-- Drop a single trailing dash (the `-$` alternative of `replace(/^-|-$/g, '')`). -/
def dropOneTrailingDash : List Char → List Char
  | [] => []
  | [c] => if c = '-' then [] else [c]
  | c :: c' :: cs => c :: dropOneTrailingDash (c' :: cs)

namespace Utils

/-- Embeds `sanitizeSlug` of the security utility module: lowercase, replace
every character outside `[a-z0-9-]` by `-`, collapse dash runs, remove one
leading and one trailing dash. -/
def sanitizeSlug (slug : List Char) : List Char :=
  dropOneTrailingDash (dropOneLeadingDash (collapseDashes
    ((slug.map jsToLower).map fun c => if isSlugChar c then c else '-')))

end Utils

/-- No two consecutive dashes occur in the string. -/
def noConsecDashes : List Char → Bool
  | [] => true
  | [_] => true
  | c :: c' :: cs => !(c = '-' && c' = '-') && noConsecDashes (c' :: cs)

/-- The shape demanded of sanitized slugs by the specification: empty, or a
`[a-z0-9-]` string that starts and ends with `[a-z0-9]` (the regex
`^[a-z0-9]([a-z0-9-]*[a-z0-9])?$|^$`), with no consecutive dashes. -/
def slugShape (l : List Char) : Bool :=
  l.all isSlugChar &&
    (match l.head? with | some c => isAlnumLower c | none => true) &&
    (match l.getLast? with | some c => isAlnumLower c | none => true) &&
    noConsecDashes l

/-! ### Tag normalizer -/

/-- The character class `[a-z0-9-\s]` with the `i` flag, i.e. additionally
`[A-Z]` (the regex `/^[a-z0-9-\s]+$/i` of `sanitizeTags`). -/
def isTagChar (c : Char) : Bool :=
  isLowerAlpha c || isDigitC c || c = '-' || isWs c || isUpperAlpha c

/-- The same class without the case-insensitive flag, as in the
specification's regex `^[a-z0-9-\s]+$`. -/
def isTagCharLower (c : Char) : Bool :=
  isLowerAlpha c || isDigitC c || c = '-' || isWs c

/-- Test of `/^[a-z0-9-\s]+$/i` on a whole string (the `+` requires at least
one character). -/
def tagMatches (l : List Char) : Bool := !l.isEmpty && l.all isTagChar

/-- Test of `^[a-z0-9-\s]+$` (case-sensitive, as the specification writes it). -/
def tagMatchesLower (l : List Char) : Bool := !l.isEmpty && l.all isTagCharLower

/-- The tag pipeline of `sanitizeTags` before the final `slice(0, 10)`:
keep entries whose trim is non-blank, trim and lowercase, keep entries
matching `/^[a-z0-9-\s]+$/i`.  (The `typeof tag === 'string'` test of the
source is vacuous in this typed embedding.) -/
def tagPipeline (tags : List (List Char)) : List (List Char) :=
  ((tags.filter fun t => decide (0 < (jsTrim t).length)).map
      fun t => (jsTrim t).map jsToLower).filter tagMatches

namespace Utils

/-- Embeds `sanitizeTags` of the security utility module. -/
def sanitizeTags (tags : List (List Char)) : List (List Char) :=
  (tagPipeline tags).take 10

end Utils

/-- Reference definition of tag normalization, written from the
specification wording: drop blank entries, trim and lowercase the rest, keep
only entries matching `^[a-z0-9-\s]+$`, truncate to the first 10 entries
preserving original relative order. -/
def sanitizeTagsRef (tags : List (List Char)) : List (List Char) :=
  ((((tags.filter fun t => decide (jsTrim t ≠ [])).map
      fun t => (jsTrim t).map jsToLower).filter tagMatchesLower).take 10)

/-! ### Collection assembler (`getPublishedBlogPosts` of `src/utils/blog.ts`) -/

/-- A content record as seen by the assembler: its stable identifier, its
`publishDate` as epoch milliseconds (`new Date(..).getTime()`), and its
`draft` flag.  The remaining frontmatter fields play no role in the
assembler and are omitted. -/
structure BlogPost where
  identifier : List Char
  publishDate : Int
  draft : Bool
deriving DecidableEq

/-- The order imposed by the sort comparator
`(a, b) => dateOf b - dateOf a`: `a` may stay before `b` exactly when the
comparator is non-positive, i.e. when `b`'s date is at most `a`'s
(descending by date, ties unconstrained). -/
def dateDesc (a b : BlogPost) : Prop := b.publishDate ≤ a.publishDate

instance : DecidableRel dateDesc :=
  fun a b => inferInstanceAs (Decidable (b.publishDate ≤ a.publishDate))

instance : IsTotal BlogPost dateDesc := ⟨fun a b => le_total b.publishDate a.publishDate⟩

instance : IsTrans BlogPost dateDesc := ⟨fun _ _ _ h1 h2 => le_trans h2 h1⟩

/-- Strict lexicographic order on identifiers (by code point), used to state
what "identifier ascending" would mean. -/
def idLt : List Char → List Char → Bool
  | [], [] => false
  | [], _ :: _ => true
  | _ :: _, [] => false
  | a :: as, b :: bs => a.toNat < b.toNat || (a = b && idLt as bs)

namespace Blog

/-- Embeds `getPublishedBlogPosts` of `src/utils/blog.ts`: keep the records
with `!data.draft`, then `Array.prototype.sort` with comparator
`(a, b) => new Date(b.data.publishDate).getTime() - new Date(a.data.publishDate).getTime()`.
ECMAScript requires `sort` to be stable, and a stable sort for a total
transitive comparator has a unique result, here modelled by the stable
`List.insertionSort`.  The function inspects no slugs and can fail on no
input. -/
def getPublishedBlogPosts (posts : List BlogPost) : List BlogPost :=
  List.insertionSort dateDesc (posts.filter fun p => !p.draft)

end Blog

/-! ### Content collection schema (zod `blogCollection`) -/

/-- An untyped frontmatter value, as zod sees it. -/
inductive RawValue where
  | str (s : List Char)
  | date (ms : Int)
  | bool (b : Bool)
  | num (n : Int)
  | arr (vs : List RawValue)

/-- A raw frontmatter mapping for the blog collection: each expected key is
present or absent. -/
structure RawData where
  title : Option RawValue
  description : Option RawValue
  publishDate : Option RawValue
  author : Option RawValue
  tags : Option RawValue
  image : Option RawValue
  draft : Option RawValue

/-- A schema violation: a required field is absent, or a present field has
the wrong type.  (`missing` is the "missing-field" error of the
specification.) -/
inductive SchemaError where
  | missing (field : List Char)
  | wrongType (field : List Char)
deriving DecidableEq

/-- The validated record shell produced by the schema. -/
structure BlogData where
  title : List Char
  description : List Char
  publishDate : Int
  author : List Char
  tags : List (List Char)
  image : Option (List Char)
  draft : Bool
deriving DecidableEq

/-- zod `z.string()`: the field must be present and be a string; any string
value is accepted, including the empty string. -/
def requireString (field : List Char) : Option RawValue → Except SchemaError (List Char)
  | none => .error (.missing field)
  | some (.str s) => .ok s
  | some _ => .error (.wrongType field)

/-- zod `z.date()`: the field must be present and be a `Date`. -/
def requireDate (field : List Char) : Option RawValue → Except SchemaError Int
  | none => .error (.missing field)
  | some (.date ms) => .ok ms
  | some _ => .error (.wrongType field)

/-- Element check of `z.array(z.string())`. -/
def stringList (field : List Char) : List RawValue → Except SchemaError (List (List Char))
  | [] => .ok []
  | .str s :: vs =>
    match stringList field vs with
    | .ok ss => .ok (s :: ss)
    | .error e => .error e
  | _ :: _ => .error (.wrongType field)

/-- zod `z.array(z.string()).default([])`. -/
def stringArrayDefault (field : List Char) : Option RawValue → Except SchemaError (List (List Char))
  | none => .ok []
  | some (.arr vs) => stringList field vs
  | some _ => .error (.wrongType field)

/-- zod `z.string().optional()`. -/
def optionalString (field : List Char) : Option RawValue → Except SchemaError (Option (List Char))
  | none => .ok none
  | some (.str s) => .ok (some s)
  | some _ => .error (.wrongType field)

/-- zod `z.boolean().default(false)`. -/
def boolDefaultFalse (field : List Char) : Option RawValue → Except SchemaError Bool
  | none => .ok false
  | some (.bool b) => .ok b
  | some _ => .error (.wrongType field)

/-- Embeds the zod schema of the blog collection
(`title: z.string(), description: z.string(), publishDate: z.date(),
author: z.string(), tags: z.array(z.string()).default([]),
image: z.string().optional(), draft: z.boolean().default(false)`),
checking the fields in declaration order and reporting the first violation. -/
def parseBlogData (r : RawData) : Except SchemaError BlogData :=
  match requireString "title".data r.title with
  | .error e => .error e
  | .ok title =>
  match requireString "description".data r.description with
  | .error e => .error e
  | .ok description =>
  match requireDate "publishDate".data r.publishDate with
  | .error e => .error e
  | .ok publishDate =>
  match requireString "author".data r.author with
  | .error e => .error e
  | .ok author =>
  match stringArrayDefault "tags".data r.tags with
  | .error e => .error e
  | .ok tags =>
  match optionalString "image".data r.image with
  | .error e => .error e
  | .ok image =>
  match boolDefaultFalse "draft".data r.draft with
  | .error e => .error e
  | .ok draft => .ok ⟨title, description, publishDate, author, tags, image, draft⟩

/-- Modelled from the spec: the per-record half of the content pipeline
(the content loader driving the schema is framework code absent from the
repository sources).  Each raw record is validated against the schema;
"validation failures on individual records are reported and that record is
excluded (non-fatal)" while the remaining records are kept, in order, and
the build continues. -/
def validateRecords (records : List (List Char × RawData)) : List (List Char × BlogData) :=
  records.filterMap fun r =>
    match parseBlogData r.2 with
    | .ok d => some (r.1, d)
    | .error _ => none

/-! ### Date formatting (`formatDate` of the security utility module) -/

/-- A JavaScript `Date` object: either a valid instant (epoch milliseconds)
or an Invalid Date, whose `getTime()` is `NaN`. -/
inductive JsDate where
  | valid (ms : Int)
  | invalid
deriving DecidableEq

/-- The argument of `formatDate`: a `Date` object or a string. -/
inductive DateInput where
  | date (d : JsDate)
  | str (s : List Char)
deriving DecidableEq

/-- The sentinel returned for invalid input. -/
def invalidDateStr : List Char := "Invalid date".data

/-- The `dateObj` local of `formatDate`, parameterized by the JavaScript
runtime's `new Date(string)` parser (an external service of the embedding). -/
def dateObjOf (jsNewDate : List Char → JsDate) : DateInput → JsDate
  | .str s => jsNewDate s
  | .date d => d

/-- The `getTime()` of the `dateObj`, `none` standing for `NaN`. -/
def timeOfInput (jsNewDate : List Char → JsDate) (input : DateInput) : Option Int :=
  match dateObjOf jsNewDate input with
  | .valid ms => some ms
  | .invalid => none

/-- The `try` block of `formatDate`: materializes the one `throw` site
(`isNaN(dateObj.getTime())`) as an `Except` error; on a valid date it
returns `toLocaleDateString('en-US', ...)`, modelled by the runtime
parameter `jsLocale`. -/
def formatDateAttempt (jsNewDate : List Char → JsDate) (jsLocale : Int → List Char)
    (input : DateInput) : Except Unit (List Char) :=
  match dateObjOf jsNewDate input with
  | .invalid => .error ()
  | .valid ms => .ok (jsLocale ms)

namespace Utils

/-- Embeds `formatDate` of the security utility module: the `catch` arm
turns the only possible exception into the sentinel `'Invalid date'`. -/
def formatDate (jsNewDate : List Char → JsDate) (jsLocale : Int → List Char)
    (input : DateInput) : List Char :=
  match formatDateAttempt jsNewDate jsLocale input with
  | .ok s => s
  | .error _ => invalidDateStr

end Utils


/-! ### Concrete inputs used in counterexamples and witnesses -/

/-- Two non-draft records whose identifiers sanitize to the same slug `"a"`. -/
def slugCexPost1 : BlogPost := ⟨"A!".data, 200, false⟩

/-- Second record of the duplicate-slug pair. -/
def slugCexPost2 : BlogPost := ⟨"a".data, 100, false⟩

/-- Tie pair: equal `publishDate`, identifiers in descending order in the
input, so that identifier-ascending output would have to swap them. -/
def tiePostB : BlogPost := ⟨"b".data, 100, false⟩

/-- Second element of the tie pair (lexicographically smaller identifier). -/
def tiePostA : BlogPost := ⟨"a".data, 100, false⟩

/-- Record dated 2024-01-15 (epoch milliseconds). -/
def post0115 : BlogPost := ⟨"p15".data, 1705276800000, false⟩

/-- Record dated 2024-01-20. -/
def post0120 : BlogPost := ⟨"p20".data, 1705708800000, false⟩

/-- Record dated 2024-01-25. -/
def post0125 : BlogPost := ⟨"p25".data, 1706140800000, false⟩

/-- A draft record (otherwise valid fields). -/
def draftCexPost : BlogPost := ⟨"d".data, 300, true⟩

/-- Raw frontmatter whose `title` is present but empty; all other required
fields are valid. -/
def rawEmptyTitle : RawData :=
  ⟨some (.str []), some (.str "d".data), some (.date 0), some (.str "a".data),
    none, none, none⟩

/-- Raw frontmatter with `title` absent; all other required fields valid. -/
def rawMissingTitle : RawData :=
  ⟨none, some (.str "d".data), some (.date 0), some (.str "a".data),
    none, none, none⟩

/-- A fully valid raw frontmatter record. -/
def rawValidRecord : RawData :=
  ⟨some (.str "t".data), some (.str "d".data), some (.date 5), some (.str "a".data),
    none, none, none⟩

/-- A body of exactly 400 space-separated words. -/
def body400 : List Char := List.flatten (List.replicate 400 ['a', ' '])

/-- Excerpt counterexample body: an 80-character word, a tab (a whitespace
boundary that is not a space), then a 100-character word; 181 characters in
total, all kept by the excerpt character filter. -/
def tabBody : List Char := List.replicate 80 'a' ++ '\t' :: List.replicate 100 'b'

/-- Eleven valid tags. -/
def elevenTags : List (List Char) :=
  ["t0".data, "t1".data, "t2".data, "t3".data, "t4".data, "t5".data,
    "t6".data, "t7".data, "t8".data, "t9".data, "ta".data]

/-- A body with a space boundary inside the truncation window and more than
160 characters overall, used to exercise the back-up branch. -/
def spaceBody : List Char := 'a' :: ' ' :: List.replicate 170 'b'

/-! ### Helper lemmas about the assembler -/

/-- Membership in the assembled output is membership in the non-draft filter. -/
theorem mem_getPublishedBlogPosts {posts : List BlogPost} {p : BlogPost} :
    p ∈ Blog.getPublishedBlogPosts posts ↔ p ∈ posts ∧ p.draft = false := by
  rw [Blog.getPublishedBlogPosts, List.mem_insertionSort, List.mem_filter]
  simp

/-- A successful `requireString` means the field was a present string. -/
theorem requireString_ok {f : List Char} {o : Option RawValue} {s : List Char}
    (h : requireString f o = .ok s) : o = some (.str s) := by
  match o with
  | none => simp [requireString] at h
  | some (.str t) => simp [requireString] at h; rw [h]
  | some (.date m) => simp [requireString] at h
  | some (.bool b) => simp [requireString] at h
  | some (.num n) => simp [requireString] at h
  | some (.arr vs) => simp [requireString] at h

/-! ### C1 — duplicate slugs and the assembler -/

/-- C1 counterexample: the claim says that a collection with two non-draft
records whose identifiers sanitize to the same slug makes the assembler fail
with a `CollectionError` and produce no output sequence.  On the embedded
code the assembler performs no slug check at all: on such a pair it
produces an output sequence containing both records. -/
theorem duplicate_slug_output_produced_cex :
    Utils.sanitizeSlug slugCexPost1.identifier = Utils.sanitizeSlug slugCexPost2.identifier ∧
    slugCexPost1.draft = false ∧ slugCexPost2.draft = false ∧
    Blog.getPublishedBlogPosts [slugCexPost1, slugCexPost2] = [slugCexPost1, slugCexPost2] := by
  decide

/-- C1 (amended): the assembler performs no slug-uniqueness check and cannot
fail: any two non-draft records of the collection — in particular two whose
identifiers sanitize to the same slug — both appear in the assembled output
sequence. -/
theorem duplicate_slug_records_both_in_output
    (posts : List BlogPost) (p q : BlogPost)
    (hp : p ∈ posts) (hq : q ∈ posts)
    (hdp : p.draft = false) (hdq : q.draft = false)
    (_ : Utils.sanitizeSlug p.identifier = Utils.sanitizeSlug q.identifier) :
    p ∈ Blog.getPublishedBlogPosts posts ∧ q ∈ Blog.getPublishedBlogPosts posts :=
  ⟨mem_getPublishedBlogPosts.mpr ⟨hp, hdp⟩, mem_getPublishedBlogPosts.mpr ⟨hq, hdq⟩⟩

/-- Witness for C1 (amended) at the concrete duplicate-slug pair. -/
theorem duplicate_slug_records_both_in_output_witness :
    slugCexPost1 ∈ Blog.getPublishedBlogPosts [slugCexPost1, slugCexPost2] ∧
    slugCexPost2 ∈ Blog.getPublishedBlogPosts [slugCexPost1, slugCexPost2] :=
  duplicate_slug_records_both_in_output [slugCexPost1, slugCexPost2] slugCexPost1 slugCexPost2
    (by decide) (by decide) (by decide) (by decide) (by decide)

/-! ### C2 — assembler sort order -/

/-- C2 counterexample: the claim says records with equal `publishDate` are
ordered by identifier ascending.  The embedded sort is the (required-stable)
ECMAScript sort with a date-only comparator: on a tie it keeps the input
order, so an input in which the identifiers are out of order stays out of
order. -/
theorem sort_tie_not_identifier_ascending_cex :
    Blog.getPublishedBlogPosts [tiePostB, tiePostA] = [tiePostB, tiePostA] ∧
    tiePostB.publishDate = tiePostA.publishDate ∧
    idLt tiePostA.identifier tiePostB.identifier = true := by
  decide

/-- C2 (amended): the assembled output is sorted by `publishDate` descending
(newest first), it is a permutation of the non-draft records, and the sort
is stable: any two records already in comparator order in the input — in
particular any two with equal `publishDate` — keep their relative input
order.  The spec's three-record example sorts as claimed. -/
theorem assembled_output_sorted_desc_stable :
    (∀ posts : List BlogPost,
      List.Sorted dateDesc (Blog.getPublishedBlogPosts posts) ∧
      List.Perm (Blog.getPublishedBlogPosts posts) (posts.filter fun p => !p.draft)) ∧
    (∀ (posts : List BlogPost) (a b : BlogPost), dateDesc a b →
      List.Sublist [a, b] (posts.filter fun p => !p.draft) →
      List.Sublist [a, b] (Blog.getPublishedBlogPosts posts)) ∧
    Blog.getPublishedBlogPosts [post0115, post0125, post0120] =
      [post0125, post0120, post0115] :=
  ⟨fun posts => ⟨List.sorted_insertionSort dateDesc _, List.perm_insertionSort dateDesc _⟩,
   fun _ _ _ hab hsub => List.pair_sublist_insertionSort hab hsub,
   by decide⟩

/-- Witness for C2 (amended): the stability clause applied to the concrete
equal-date pair. -/
theorem assembled_output_sorted_desc_stable_witness :
    List.Sublist [tiePostB, tiePostA] (Blog.getPublishedBlogPosts [tiePostB, tiePostA]) :=
  assembled_output_sorted_desc_stable.2.1 [tiePostB, tiePostA] tiePostB tiePostA
    (by decide) (by decide)

/-! ### C8 — draft exclusion -/

/-- C8: a record with `draft = true` never appears in the assembled output
sequence, whatever its other fields are. -/
theorem draft_never_in_output (posts : List BlogPost) (p : BlogPost)
    (h : p.draft = true) : p ∉ Blog.getPublishedBlogPosts posts := by
  intro hmem
  rcases mem_getPublishedBlogPosts.mp hmem with ⟨-, hdraft⟩
  rw [h] at hdraft
  cases hdraft

/-- Witness for C8 at a concrete draft record. -/
theorem draft_never_in_output_witness :
    draftCexPost ∉ Blog.getPublishedBlogPosts [draftCexPost, tiePostA] :=
  draft_never_in_output [draftCexPost, tiePostA] draftCexPost (by decide)

/-! ### C3 — schema validation of required string fields -/

/-- C3 counterexample: the claim says schema validation fails whenever
`title` is not a non-empty string after trimming.  The embedded schema is
plain `z.string()`: a present but empty `title` (empty also after trimming)
is accepted. -/
theorem empty_title_accepted_cex :
    parseBlogData rawEmptyTitle = .ok ⟨[], "d".data, 0, "a".data, [], none, false⟩ ∧
    rawEmptyTitle.title = some (.str (jsTrim [])) := by
  constructor <;> rfl

/-- C3 (amended): schema validation fails with a `SchemaError` when `title`,
`description`, or `author` is absent or not a string — in particular a
record with `title` absent fails with missing-field `title` — and such a
record is excluded from the validated output without aborting the run;
present string values are accepted even when empty after trimming. -/
theorem schema_rejects_missing_string_fields :
    (∀ r : RawData, r.title = none → parseBlogData r = .error (.missing "title".data)) ∧
    (∀ (r : RawData) (b : BlogData), parseBlogData r = .ok b →
      (∃ s, r.title = some (.str s)) ∧ (∃ s, r.description = some (.str s)) ∧
      (∃ s, r.author = some (.str s))) ∧
    (∀ (pre post : List (List Char × RawData)) (id : List Char) (raw : RawData)
      (e : SchemaError), parseBlogData raw = .error e →
      validateRecords (pre ++ (id, raw) :: post) =
        validateRecords pre ++ validateRecords post) ∧
    validateRecords [("r1".data, rawMissingTitle), ("r2".data, rawValidRecord)] =
      [("r2".data, ⟨"t".data, "d".data, 5, "a".data, [], none, false⟩)] := by
  refine ⟨fun r h => ?_, fun r b h => ?_, fun pre post id raw e h => ?_, by rfl⟩
  · simp [parseBlogData, h, requireString]
  · rcases h1 : requireString "title".data r.title with e1 | s1
    · simp [parseBlogData, h1] at h
    · rcases h2 : requireString "description".data r.description with e2 | s2
      · simp [parseBlogData, h1, h2] at h
      · rcases h4 : requireString "author".data r.author with e4 | s4
        · rcases h3 : requireDate "publishDate".data r.publishDate with e3 | s3 <;>
            simp [parseBlogData, h1, h2, h3, h4] at h
        · exact ⟨⟨s1, requireString_ok h1⟩, ⟨s2, requireString_ok h2⟩,
            ⟨s4, requireString_ok h4⟩⟩
  · simp [validateRecords, List.filterMap_append, List.filterMap_cons, h]

/-- Witness for C3 (amended) at the concrete missing-`title` record. -/
theorem schema_rejects_missing_string_fields_witness :
    parseBlogData rawMissingTitle = .error (.missing "title".data) ∧
    validateRecords ([] ++ ("r1".data, rawMissingTitle) :: [("r2".data, rawValidRecord)]) =
      validateRecords [] ++ validateRecords [("r2".data, rawValidRecord)] :=
  ⟨schema_rejects_missing_string_fields.1 rawMissingTitle rfl,
   schema_rejects_missing_string_fields.2.2.1 [] [("r2".data, rawValidRecord)]
     "r1".data rawMissingTitle (.missing "title".data)
     (schema_rejects_missing_string_fields.1 rawMissingTitle rfl)⟩

/-! ### C10 — totality and sentinel of `formatDate` -/

/-- C10: for every input (a `Date` object or a string), `formatDate` is
total — its one `throw` site is inside the `try` and is turned into the
sentinel by the `catch` — and, provided the locale formatter never itself
produces the sentinel text, it returns `'Invalid date'` exactly when the
input does not denote a valid date, and the locale-formatted date string
otherwise.  The runtime services `new Date(string)` and
`toLocaleDateString('en-US', ...)` are parameters of the embedding. -/
theorem formatDate_total_and_sentinel
    (jsNewDate : List Char → JsDate) (jsLocale : Int → List Char)
    (hfmt : ∀ ms, jsLocale ms ≠ invalidDateStr) (input : DateInput) :
    Utils.formatDate jsNewDate jsLocale input =
      (match timeOfInput jsNewDate input with
       | none => invalidDateStr
       | some ms => jsLocale ms) ∧
    (Utils.formatDate jsNewDate jsLocale input = invalidDateStr ↔
      timeOfInput jsNewDate input = none) := by
  simp only [Utils.formatDate, formatDateAttempt, timeOfInput]
  cases dateObjOf jsNewDate input with
  | valid ms => simp [hfmt ms]
  | invalid => simp

/-- Witness for C10 at a concrete runtime instantiation and input. -/
theorem formatDate_total_and_sentinel_witness :
    Utils.formatDate (fun _ => JsDate.invalid) (fun _ => ['x']) (.str "nonsense".data) =
      invalidDateStr :=
  (formatDate_total_and_sentinel (fun _ => JsDate.invalid) (fun _ => ['x'])
    (fun ms => by show (['x'] : List Char) ≠ invalidDateStr; decide)
    (.str "nonsense".data)).2.mpr rfl

/-! ### Word-count lemmas relating `split(/\s+/)` to maximal-run counting -/

/-- The number of fragments produced by the splitter is one more than the
number of separator (whitespace) runs it encounters. -/
theorem splitWsAux_length (l : List Char) : ∀ (b : Bool) (acc : List Char),
    (splitWsAux b acc l).length = 1 + wsRunsAux b l := by
  induction l with
  | nil => intro b acc; simp [splitWsAux, wsRunsAux]
  | cons c cs ih =>
    intro b acc
    simp only [splitWsAux, wsRunsAux]
    by_cases hw : isWs c
    · cases b with
      | true => simp [hw, ih]
      | false => simp [hw, ih]; omega
    · simp [hw, ih]

/-- One-step equation of `runCountAux`. -/
theorem runCountAux_cons (b : Bool) (c : Char) (l : List Char) :
    runCountAux b (c :: l) =
      if isWs c then runCountAux false l
      else (if b then 0 else 1) + runCountAux true l := rfl

/-- One-step equation of `wsRunsAux`. -/
theorem wsRunsAux_cons (b : Bool) (c : Char) (l : List Char) :
    wsRunsAux b (c :: l) =
      if isWs c then (if b then 0 else 1) + wsRunsAux true l
      else wsRunsAux false l := rfl

/-- On a nonempty string that does not end in whitespace, word runs and
whitespace runs alternate: started in-word the word count equals the
whitespace-run count, started outside it exceeds it by one. -/
theorem runs_counts_relate : ∀ (l : List Char), l ≠ [] →
    (∀ c, l.getLast? = some c → isWs c = false) →
    runCountAux true l = wsRunsAux false l ∧
      runCountAux false l = wsRunsAux true l + 1
  | [], h, _ => absurd rfl h
  | [c], _, hend => by
    have hc : isWs c = false := hend c rfl
    simp [runCountAux, wsRunsAux, hc]
  | c :: c' :: cs, _, hend => by
    have hend' : ∀ d, (c' :: cs).getLast? = some d → isWs d = false := by
      intro d hd
      exact hend d (by rw [List.getLast?_cons_cons]; exact hd)
    obtain ⟨ih1, ih2⟩ := runs_counts_relate (c' :: cs) (by simp) hend'
    cases hw : isWs c with
    | true =>
      refine ⟨?_, ?_⟩
      · rw [runCountAux_cons, wsRunsAux_cons, hw]
        simp [ih2]
        omega
      · rw [runCountAux_cons, wsRunsAux_cons, hw]
        simp [ih2]
    | false =>
      refine ⟨?_, ?_⟩
      · rw [runCountAux_cons, wsRunsAux_cons, hw]
        simp [ih1]
      · rw [runCountAux_cons, wsRunsAux_cons, hw]
        simp [ih1]
        omega

/-- The whitespace-run count does not depend on the starting flag when the
string does not start with whitespace. -/
theorem wsRunsAux_of_headNotWs (l : List Char)
    (hhead : ∀ c, l.head? = some c → isWs c = false) :
    wsRunsAux false l = wsRunsAux true l := by
  cases l with
  | nil => rfl
  | cons c cs =>
    have hc : isWs c = false := hhead c rfl
    simp [wsRunsAux, hc]

/-- A string whose trailing-whitespace strip is empty is all whitespace and
has no word runs. -/
theorem runCountAux_eq_zero_of_trimRight_nil : ∀ (l : List Char), trimRight l = [] →
    ∀ b : Bool, runCountAux b l = 0
  | [], _, _ => rfl
  | c :: cs, h, b => by
    rcases ht : trimRight cs with - | ⟨t, ts⟩
    · have hw : isWs c := by
        by_contra hw
        simp [trimRight, ht, hw] at h
      have := runCountAux_eq_zero_of_trimRight_nil cs ht false
      simp [runCountAux, hw, this]
    · simp [trimRight, ht] at h

/-- Stripping trailing whitespace does not change the word-run count. -/
theorem runCountAux_trimRight : ∀ (l : List Char) (b : Bool),
    runCountAux b (trimRight l) = runCountAux b l
  | [], _ => rfl
  | c :: cs, b => by
    rcases ht : trimRight cs with - | ⟨t, ts⟩
    · by_cases hw : isWs c
      · simp [trimRight, ht, hw, runCountAux,
          runCountAux_eq_zero_of_trimRight_nil cs ht]
      · simp [trimRight, ht, hw, runCountAux,
          runCountAux_eq_zero_of_trimRight_nil cs ht]
    · have ih := runCountAux_trimRight cs
      by_cases hw : isWs c
      · simp [trimRight, ht, runCountAux, hw, ← ih, ht]
      · simp [trimRight, ht, runCountAux, hw, ← ih, ht]

/-- Stripping leading whitespace does not change the word-run count. -/
theorem runCountAux_dropWhile : ∀ (l : List Char),
    runCountAux false (l.dropWhile isWs) = runCountAux false l
  | [] => rfl
  | c :: cs => by
    by_cases hw : isWs c
    · simp [List.dropWhile_cons, hw, runCountAux, runCountAux_dropWhile cs]
    · simp [List.dropWhile_cons, hw]

/-- The trailing-whitespace strip leaves a string that does not end in
whitespace. -/
theorem trimRight_endsNotWs : ∀ (l : List Char) (c : Char),
    (trimRight l).getLast? = some c → isWs c = false
  | [], c, h => by simp [trimRight] at h
  | a :: as, c, h => by
    rcases ht : trimRight as with - | ⟨t, ts⟩
    · rw [trimRight, ht] at h
      cases hw : isWs a with
      | true => simp [hw] at h
      | false =>
        simp [hw] at h
        rw [← h]; exact hw
    · rw [trimRight, ht] at h
      rw [List.getLast?_cons_cons, ← ht] at h
      exact trimRight_endsNotWs as c h

/-- Dropping a whitespace run at the front preserves "does not end in
whitespace". -/
theorem dropWhile_endsNotWs : ∀ (l : List Char),
    (∀ c, l.getLast? = some c → isWs c = false) →
    ∀ c, ((l.dropWhile isWs).getLast? = some c) → isWs c = false
  | [], _, c, h => by simp at h
  | a :: as, hend, c, h => by
    cases hw : isWs a with
    | true =>
      rw [List.dropWhile_cons, if_pos hw] at h
      cases as with
      | nil => simp at h
      | cons a' as' =>
        exact dropWhile_endsNotWs (a' :: as')
          (fun d hd => hend d (by rw [List.getLast?_cons_cons]; exact hd)) c h
    | false =>
      rw [List.dropWhile_cons, if_neg (by simp [hw])] at h
      exact hend c h

/-- The head of a `dropWhile isWs` is not whitespace. -/
theorem head_dropWhile_notWs : ∀ (l : List Char) (c : Char),
    (l.dropWhile isWs).head? = some c → isWs c = false
  | [], c, h => by simp at h
  | a :: as, c, h => by
    cases hw : isWs a with
    | true =>
      rw [List.dropWhile_cons, if_pos hw] at h
      exact head_dropWhile_notWs as c h
    | false =>
      rw [List.dropWhile_cons, if_neg (by simp [hw])] at h
      simp only [List.head?_cons, Option.some.injEq] at h
      rw [← h]; exact hw

/-- The word count used by the reading-time code — the length of
`trim().split(/\s+/)` — equals the maximal-non-whitespace-run count of the
original string, floored at one (the floor arises because splitting the
empty trimmed string still yields the one fragment `[""]`). -/
theorem jsSplitCount_trim (l : List Char) :
    jsSplitCount (jsTrim l) = max 1 (wordRuns l) := by
  have hcount : wordRuns l = runCountAux false (jsTrim l) := by
    rw [jsTrim, wordRuns, runCountAux_dropWhile, runCountAux_trimRight]
  rw [jsSplitCount, jsSplitWs, splitWsAux_length]
  rcases hT : jsTrim l with - | ⟨c, cs⟩
  · rw [hcount, hT]
    simp [wsRunsAux, runCountAux]
  · have hend : ∀ d, (jsTrim l).getLast? = some d → isWs d = false := by
      intro d hd
      exact dropWhile_endsNotWs (trimRight l) (trimRight_endsNotWs l) d hd
    have hhead : ∀ d, (jsTrim l).head? = some d → isWs d = false := by
      intro d hd
      exact head_dropWhile_notWs (trimRight l) d hd
    rw [hT] at hend hhead
    obtain ⟨-, h2⟩ := runs_counts_relate (c :: cs) (by simp) hend
    rw [hcount, hT, h2, wsRunsAux_of_headNotWs (c :: cs) hhead]
    omega

/-! ### C4 — reading time matches its reference definition -/

/-- C4: for every body string `calculateReadingTime` (security utility
version) equals the reference definition — truncate to 100000 characters,
count words as maximal non-whitespace runs, divide by 200 rounding up, floor
at 1 — so the result is always at least 1, and a body of exactly 400
space-separated words yields 2. -/
theorem calculateReadingTime_matches_reference :
    (∀ body : List Char, Utils.calculateReadingTime body = readingTimeRef body) ∧
    (∀ body : List Char, 1 ≤ Utils.calculateReadingTime body) ∧
    Utils.calculateReadingTime body400 = 2 := by
  refine ⟨fun body => ?_, fun body => ?_, by decide⟩
  · show max 1 (jsCeilDiv (jsSplitCount (jsTrim (body.take 100000))) 200) =
      max 1 (jsCeilDiv (wordRuns (body.take 100000)) 200)
    rw [jsSplitCount_trim]
    rcases Nat.eq_zero_or_pos (wordRuns (body.take 100000)) with h | h
    · rw [h]
      decide
    · have hmax : max 1 (wordRuns (body.take 100000)) = wordRuns (body.take 100000) := by
        omega
      rw [hmax]
  · show 1 ≤ max 1 (jsCeilDiv (jsSplitCount (jsTrim (body.take 100000))) 200)
    exact Nat.le_max_left _ _

/-! ### C9 — the two reading-time implementations agree on short bodies -/

/-- C9: on bodies of at most 100000 characters the `blog.ts` implementation
(no cap, no explicit floor) and the security-utility implementation return
equal results.  The cap is inactive by the length bound, and the explicit
floor is inactive because `split(/\s+/)` always returns at least one
fragment, so the ceiling division is already at least 1. -/
theorem readingTime_implementations_agree (body : List Char)
    (h : body.length ≤ 100000) :
    Blog.calculateReadingTime body = Utils.calculateReadingTime body := by
  show jsCeilDiv (jsSplitCount (jsTrim body)) 200 =
    max 1 (jsCeilDiv (jsSplitCount (jsTrim (body.take 100000))) 200)
  rw [List.take_of_length_le h]
  have h1 : 1 ≤ jsSplitCount (jsTrim body) := by
    rw [jsSplitCount, jsSplitWs, splitWsAux_length]
    omega
  have h2 : 1 ≤ jsCeilDiv (jsSplitCount (jsTrim body)) 200 := by
    rw [jsCeilDiv]
    exact (Nat.one_le_div_iff (by omega)).mpr (by omega)
  omega

/-- Witness for C9 at a concrete short body. -/
theorem readingTime_implementations_agree_witness :
    Blog.calculateReadingTime "hello world".data =
      Utils.calculateReadingTime "hello world".data :=
  readingTime_implementations_agree "hello world".data (by decide)

/-! ### Character lemmas for lowercasing -/

/-- Evaluation of `Char.ofNat` on a valid code point. -/
theorem char_ofNat_toNat (n : Nat) (h : n.isValidChar) : (Char.ofNat n).toNat = n := by
  unfold Char.ofNat
  rw [dif_pos h]
  rfl

/-- Lowercasing never produces an uppercase ASCII letter. -/
theorem isUpperAlpha_jsToLower (c : Char) : isUpperAlpha (jsToLower c) = false := by
  rw [jsToLower]
  cases hu : isUpperAlpha c with
  | false => simp [hu]
  | true =>
    rw [if_pos rfl]
    simp only [isUpperAlpha, decide_eq_true_eq] at hu
    have hv : (c.toNat + 32).isValidChar := Or.inl (by omega)
    simp only [isUpperAlpha, char_ofNat_toNat _ hv, decide_eq_false_iff_not]
    omega

/-! ### C6 — tag normalization -/

/-- On a string with no uppercase letters, the case-insensitive tag class
agrees with the case-sensitive one. -/
theorem all_tagChar_of_noUpper : ∀ (u : List Char),
    (∀ c ∈ u, isUpperAlpha c = false) → u.all isTagChar = u.all isTagCharLower
  | [], _ => rfl
  | c :: cs, h => by
    have hc := h c (List.mem_cons_self c cs)
    have ih := all_tagChar_of_noUpper cs fun d hd => h d (List.mem_cons_of_mem c hd)
    simp [List.all_cons, ih, isTagChar, isTagCharLower, hc]

/-- Every member of the sanitized tag output matches the tag pattern. -/
theorem mem_sanitizeTags_matches {tags : List (List Char)} {x : List Char}
    (hx : x ∈ Utils.sanitizeTags tags) : tagMatches x = true := by
  rw [Utils.sanitizeTags] at hx
  exact List.of_mem_filter (List.mem_of_mem_take hx)

/-- C6: tag normalization equals the reference definition (drop blank
entries, trim and lowercase, keep only matches of the tag pattern, truncate
to the first 10 in original order); `"C++ <script>"` can never appear in an
output (in raw or lowercased form) and is rejected as an input; `"Web-Design"`
normalizes to `"web-design"`; more than 10 surviving tags are cut to exactly
the first 10 of the pipeline, in pipeline order. -/
theorem sanitizeTags_matches_reference :
    (∀ tags, Utils.sanitizeTags tags = sanitizeTagsRef tags) ∧
    (∀ tags, "c++ <script>".data ∉ Utils.sanitizeTags tags ∧
      "C++ <script>".data ∉ Utils.sanitizeTags tags) ∧
    Utils.sanitizeTags ["C++ <script>".data] = [] ∧
    Utils.sanitizeTags ["Web-Design".data] = ["web-design".data] ∧
    (∀ tags, Utils.sanitizeTags tags = (tagPipeline tags).take 10 ∧
      (10 < (tagPipeline tags).length → (Utils.sanitizeTags tags).length = 10)) := by
  refine ⟨fun tags => ?_, fun tags => ⟨fun h => ?_, fun h => ?_⟩, by decide, by decide,
    fun tags => ⟨rfl, fun h => ?_⟩⟩
  · rw [Utils.sanitizeTags, sanitizeTagsRef, tagPipeline]
    have hfilter : (tags.filter fun t => decide (0 < (jsTrim t).length)) =
        tags.filter fun t => decide (jsTrim t ≠ []) :=
      List.filter_congr fun t _ => by cases h : jsTrim t <;> simp [h]
    rw [hfilter]
    congr 1
    refine List.filter_congr fun x hx => ?_
    rcases List.mem_map.mp hx with ⟨t, -, rfl⟩
    have hno : ∀ c ∈ (jsTrim t).map jsToLower, isUpperAlpha c = false := by
      intro c hc
      rcases List.mem_map.mp hc with ⟨d, -, rfl⟩
      exact isUpperAlpha_jsToLower d
    rw [tagMatches, tagMatchesLower, all_tagChar_of_noUpper _ hno]
  · have := mem_sanitizeTags_matches h
    revert this
    decide
  · have := mem_sanitizeTags_matches h
    revert this
    decide
  · rw [Utils.sanitizeTags, List.length_take]
    omega

/-- Witness for C6 (tag-cap clause) at a concrete list of eleven valid tags. -/
theorem sanitizeTags_matches_reference_witness :
    (Utils.sanitizeTags elevenTags).length = 10 :=
  (sanitizeTags_matches_reference.2.2.2.2 elevenTags).2 (by decide)

/-! ### C7 — slug sanitizer lemmas -/

/-- One-step equation of `collapseDashesAux`. -/
theorem collapseDashesAux_cons (b : Bool) (c : Char) (l : List Char) :
    collapseDashesAux b (c :: l) =
      if c = '-' then
        if b then collapseDashesAux true l else '-' :: collapseDashesAux true l
      else c :: collapseDashesAux false l := rfl

/-- Unfolding of `noConsecDashes` on a list with at least one element. -/
theorem noConsec_cons_iff (c : Char) (l : List Char) :
    noConsecDashes (c :: l) = true ↔
      noConsecDashes l = true ∧ (c = '-' → ∀ d, l.head? = some d → d ≠ '-') := by
  cases l with
  | nil => simp [noConsecDashes]
  | cons c' cs =>
    by_cases hc : c = '-' <;> by_cases hc' : c' = '-' <;>
      simp [noConsecDashes, hc, hc']

/-- Every character kept by the replacement map is in `[a-z0-9-]`. -/
theorem replace_all_slug (l : List Char) :
    (l.map fun c => if isSlugChar c then c else '-').all isSlugChar = true := by
  rw [List.all_eq_true]
  intro x hx
  rcases List.mem_map.mp hx with ⟨c, -, rfl⟩
  by_cases h : isSlugChar c = true
  · simp [h]
  · simp only [h]
    simp
    decide

/-- Collapsing preserves the `[a-z0-9-]` character invariant. -/
theorem collapse_all_slug : ∀ (l : List Char) (b : Bool),
    l.all isSlugChar = true → (collapseDashesAux b l).all isSlugChar = true
  | [], _, _ => rfl
  | c :: cs, b, h => by
    rw [List.all_cons, Bool.and_eq_true] at h
    by_cases hc : c = '-'
    · subst hc
      cases b with
      | true => simpa [collapseDashesAux_cons] using collapse_all_slug cs true h.2
      | false =>
        have hstep : collapseDashesAux false ('-' :: cs) =
            '-' :: collapseDashesAux true cs := by
          simp [collapseDashesAux_cons]
        rw [hstep, List.all_cons, Bool.and_eq_true]
        exact ⟨by decide, collapse_all_slug cs true h.2⟩
    · rw [collapseDashesAux_cons, if_neg hc, List.all_cons, Bool.and_eq_true]
      exact ⟨h.1, collapse_all_slug cs false h.2⟩

/-- Started in the just-seen-a-dash state, the collapse output never begins
with a dash. -/
theorem collapse_true_head : ∀ (l : List Char) (c : Char),
    (collapseDashesAux true l).head? = some c → c ≠ '-'
  | [], c, h => by simp [collapseDashesAux] at h
  | a :: as, c, h => by
    by_cases ha : a = '-'
    · subst ha
      have hstep : collapseDashesAux true ('-' :: as) = collapseDashesAux true as := by
        simp [collapseDashesAux_cons]
      rw [hstep] at h
      exact collapse_true_head as c h
    · rw [collapseDashesAux_cons, if_neg ha, List.head?_cons, Option.some.injEq] at h
      rw [← h]
      exact ha

/-- The collapse output has no two consecutive dashes. -/
theorem collapse_noConsec : ∀ (l : List Char) (b : Bool),
    noConsecDashes (collapseDashesAux b l) = true
  | [], _ => rfl
  | a :: as, b => by
    by_cases ha : a = '-'
    · subst ha
      cases b with
      | true => simpa [collapseDashesAux_cons] using collapse_noConsec as true
      | false =>
        have hstep : collapseDashesAux false ('-' :: as) =
            '-' :: collapseDashesAux true as := by
          simp [collapseDashesAux_cons]
        rw [hstep, noConsec_cons_iff]
        exact ⟨collapse_noConsec as true, fun _ d hd => collapse_true_head as d hd⟩
    · rw [collapseDashesAux_cons, if_neg ha, noConsec_cons_iff]
      exact ⟨collapse_noConsec as false, fun hcontr => absurd hcontr ha⟩

/-- After removing one leading dash from a no-consecutive-dash string, the
head is not a dash. -/
theorem dropLeading_head : ∀ (l : List Char), noConsecDashes l = true →
    ∀ c, (dropOneLeadingDash l).head? = some c → c ≠ '-'
  | [], _, c, h => by simp [dropOneLeadingDash] at h
  | a :: as, hnc, c, h => by
    obtain ⟨-, hPair⟩ := (noConsec_cons_iff _ _).mp hnc
    by_cases ha : a = '-'
    · rw [dropOneLeadingDash, if_pos ha] at h
      exact hPair ha c h
    · rw [dropOneLeadingDash, if_neg ha, List.head?_cons, Option.some.injEq] at h
      rw [← h]
      exact ha

/-- Removing one leading dash preserves the no-consecutive-dash property. -/
theorem dropLeading_noConsec (l : List Char) (h : noConsecDashes l = true) :
    noConsecDashes (dropOneLeadingDash l) = true := by
  cases l with
  | nil => rfl
  | cons a as =>
    obtain ⟨hTail, -⟩ := (noConsec_cons_iff _ _).mp h
    by_cases ha : a = '-'
    · rw [dropOneLeadingDash, if_pos ha]
      exact hTail
    · rw [dropOneLeadingDash, if_neg ha]
      exact h

/-- Removing one leading dash preserves the character invariant. -/
theorem dropLeading_all (l : List Char) (h : l.all isSlugChar = true) :
    (dropOneLeadingDash l).all isSlugChar = true := by
  cases l with
  | nil => rfl
  | cons a as =>
    rw [List.all_cons, Bool.and_eq_true] at h
    by_cases ha : a = '-'
    · rw [dropOneLeadingDash, if_pos ha]
      exact h.2
    · rw [dropOneLeadingDash, if_neg ha, List.all_cons, Bool.and_eq_true]
      exact h

/-- Removing one trailing dash preserves the character invariant. -/
theorem dropTrailing_all : ∀ (l : List Char), l.all isSlugChar = true →
    (dropOneTrailingDash l).all isSlugChar = true
  | [], _ => rfl
  | [a], h => by
    rw [dropOneTrailingDash]
    by_cases ha : a = '-'
    · rw [if_pos ha]
      rfl
    · rw [if_neg ha]
      exact h
  | a :: a' :: as, h => by
    rw [List.all_cons, Bool.and_eq_true] at h
    rw [dropOneTrailingDash, List.all_cons, Bool.and_eq_true]
    exact ⟨h.1, dropTrailing_all (a' :: as) h.2⟩

/-- The head survives the removal of one trailing dash. -/
theorem dropTrailing_head : ∀ (l : List Char) (c : Char),
    (dropOneTrailingDash l).head? = some c → l.head? = some c
  | [], c, h => by simp [dropOneTrailingDash] at h
  | [a], c, h => by
    rw [dropOneTrailingDash] at h
    by_cases ha : a = '-'
    · rw [if_pos ha] at h
      simp at h
    · rw [if_neg ha] at h
      exact h
  | a :: a' :: as, c, h => by
    rw [dropOneTrailingDash, List.head?_cons] at h
    rw [List.head?_cons]
    exact h

/-- The trailing-dash removal only returns the empty list on `["-"]`. -/
theorem dropTrailing_nil_cases : ∀ (a : Char) (as : List Char),
    dropOneTrailingDash (a :: as) = [] → as = [] ∧ a = '-'
  | a, [], h => by
    rw [dropOneTrailingDash] at h
    by_cases ha : a = '-'
    · exact ⟨rfl, ha⟩
    · rw [if_neg ha] at h
      cases h
  | a, a' :: as, h => by
    rw [dropOneTrailingDash] at h
    cases h

/-- After removing one trailing dash from a no-consecutive-dash string, the
last character is not a dash. -/
theorem dropTrailing_last : ∀ (l : List Char), noConsecDashes l = true →
    ∀ c, (dropOneTrailingDash l).getLast? = some c → c ≠ '-'
  | [], _, c, h => by simp [dropOneTrailingDash] at h
  | [a], _, c, h => by
    rw [dropOneTrailingDash] at h
    by_cases ha : a = '-'
    · rw [if_pos ha] at h
      simp at h
    · rw [if_neg ha] at h
      simp at h
      rw [← h]
      exact ha
  | a :: a' :: as, hnc, c, h => by
    obtain ⟨hTail, hPair⟩ := (noConsec_cons_iff _ _).mp hnc
    rw [dropOneTrailingDash] at h
    cases hd : dropOneTrailingDash (a' :: as) with
    | nil =>
      obtain ⟨has, ha'⟩ := dropTrailing_nil_cases a' as hd
      rw [hd] at h
      simp at h
      rw [← h]
      intro haDash
      exact hPair haDash a' (by rw [List.head?_cons]) ha'
    | cons x xs =>
      rw [hd, List.getLast?_cons_cons, ← hd] at h
      exact dropTrailing_last (a' :: as) hTail c h

/-- Removing one trailing dash preserves the no-consecutive-dash property. -/
theorem dropTrailing_noConsec : ∀ (l : List Char), noConsecDashes l = true →
    noConsecDashes (dropOneTrailingDash l) = true
  | [], _ => rfl
  | [a], _ => by
    rw [dropOneTrailingDash]
    by_cases ha : a = '-'
    · rw [if_pos ha]
      rfl
    · rw [if_neg ha]
      rfl
  | a :: a' :: as, hnc => by
    obtain ⟨hTail, hPair⟩ := (noConsec_cons_iff _ _).mp hnc
    rw [dropOneTrailingDash, noConsec_cons_iff]
    exact ⟨dropTrailing_noConsec (a' :: as) hTail,
      fun ha d hd => hPair ha d (dropTrailing_head (a' :: as) d hd)⟩

/-- Lowercasing is the identity on `[a-z0-9-]`. -/
theorem jsToLower_slug (c : Char) (h : isSlugChar c = true) : jsToLower c = c := by
  have hu : isUpperAlpha c = false := by
    simp only [isSlugChar, isLowerAlpha, isDigitC, Bool.or_eq_true,
      decide_eq_true_eq] at h
    simp only [isUpperAlpha, decide_eq_false_iff_not]
    rcases h with (h | h) | h
    · omega
    · omega
    · subst h
      decide
  rw [jsToLower]
  simp [hu]

/-- The lowercasing map is the identity on all-`[a-z0-9-]` strings. -/
theorem map_toLower_id : ∀ (l : List Char), l.all isSlugChar = true →
    l.map jsToLower = l
  | [], _ => rfl
  | c :: cs, h => by
    rw [List.all_cons, Bool.and_eq_true] at h
    rw [List.map_cons, jsToLower_slug c h.1, map_toLower_id cs h.2]

/-- The replacement map is the identity on all-`[a-z0-9-]` strings. -/
theorem map_replace_id : ∀ (l : List Char), l.all isSlugChar = true →
    (l.map fun c => if isSlugChar c then c else '-') = l
  | [], _ => rfl
  | c :: cs, h => by
    rw [List.all_cons, Bool.and_eq_true] at h
    rw [List.map_cons, if_pos h.1, map_replace_id cs h.2]

/-- Collapsing is the identity on strings with no consecutive dashes
(given, in the just-seen-a-dash state, that the head is not a dash). -/
theorem collapse_id : ∀ (l : List Char), noConsecDashes l = true →
    ∀ b : Bool, (b = true → ∀ c, l.head? = some c → c ≠ '-') →
    collapseDashesAux b l = l
  | [], _, _, _ => rfl
  | a :: as, hnc, b, hb => by
    obtain ⟨hTail, hPair⟩ := (noConsec_cons_iff _ _).mp hnc
    by_cases ha : a = '-'
    · cases b with
      | true => exact absurd ha (hb rfl a (by rw [List.head?_cons]))
      | false =>
        subst ha
        have hstep : collapseDashesAux false ('-' :: as) =
            '-' :: collapseDashesAux true as := by
          simp [collapseDashesAux_cons]
        rw [hstep, collapse_id as hTail true fun _ c hc => hPair rfl c hc]
    · rw [collapseDashesAux_cons, if_neg ha,
        collapse_id as hTail false fun hfalse => nomatch hfalse]

/-- Removing a leading dash is the identity when the head is not a dash. -/
theorem dropLeading_id (l : List Char)
    (h : ∀ c, l.head? = some c → c ≠ '-') : dropOneLeadingDash l = l := by
  cases l with
  | nil => rfl
  | cons a as =>
    rw [dropOneLeadingDash, if_neg (h a (by rw [List.head?_cons]))]

/-- Removing a trailing dash is the identity when the last character is not
a dash. -/
theorem dropTrailing_id : ∀ (l : List Char),
    (∀ c, l.getLast? = some c → c ≠ '-') → dropOneTrailingDash l = l
  | [], _ => rfl
  | [a], h => by
    rw [dropOneTrailingDash, if_neg (h a (by simp))]
  | a :: a' :: as, h => by
    rw [dropOneTrailingDash,
      dropTrailing_id (a' :: as) fun c hc =>
        h c (by rw [List.getLast?_cons_cons]; exact hc)]

/-- A `[a-z0-9-]` character other than the dash is lowercase alphanumeric. -/
theorem isAlnumLower_of_slug_ne (c : Char) (h : isSlugChar c = true)
    (hne : c ≠ '-') : isAlnumLower c = true := by
  simp only [isSlugChar, Bool.or_eq_true, decide_eq_true_eq] at h
  rcases h with (h | h) | h
  · simp [isAlnumLower, h]
  · simp [isAlnumLower, h]
  · exact absurd h hne

/-- Structural invariants of every sanitized slug: all characters in
`[a-z0-9-]`, no consecutive dashes, and no dash at either end. -/
theorem sanitizeSlug_props (s : List Char) :
    (Utils.sanitizeSlug s).all isSlugChar = true ∧
    noConsecDashes (Utils.sanitizeSlug s) = true ∧
    (∀ c, (Utils.sanitizeSlug s).head? = some c → c ≠ '-') ∧
    (∀ c, (Utils.sanitizeSlug s).getLast? = some c → c ≠ '-') := by
  have hm : ((s.map jsToLower).map fun c => if isSlugChar c then c else '-').all
      isSlugChar = true := replace_all_slug (s.map jsToLower)
  have hu_all := collapse_all_slug _ false hm
  have hu_nc := collapse_noConsec
    ((s.map jsToLower).map fun c => if isSlugChar c then c else '-') false
  have hv_all := dropLeading_all _ hu_all
  have hv_nc := dropLeading_noConsec _ hu_nc
  have hv_head := dropLeading_head _ hu_nc
  refine ⟨dropTrailing_all _ hv_all, dropTrailing_noConsec _ hv_nc,
    fun c hc => hv_head c (dropTrailing_head _ c hc),
    dropTrailing_last _ hv_nc⟩

/-- C7: `sanitizeSlug` is idempotent, its output matches the claimed slug
shape (empty, or lowercase alphanumerics and dashes with alphanumerics at
both ends and no consecutive dashes), it is a total function of the
embedding, and empty input yields the empty string. -/
theorem sanitizeSlug_idempotent_and_shape :
    (∀ s, Utils.sanitizeSlug (Utils.sanitizeSlug s) = Utils.sanitizeSlug s) ∧
    (∀ s, slugShape (Utils.sanitizeSlug s) = true) ∧
    Utils.sanitizeSlug [] = [] := by
  refine ⟨fun s => ?_, fun s => ?_, rfl⟩
  · obtain ⟨hall, hnc, hhead, hlast⟩ := sanitizeSlug_props s
    show dropOneTrailingDash (dropOneLeadingDash (collapseDashes
      (((Utils.sanitizeSlug s).map jsToLower).map
        fun c => if isSlugChar c then c else '-'))) = Utils.sanitizeSlug s
    rw [map_toLower_id _ hall, map_replace_id _ hall, collapseDashes,
      collapse_id _ hnc false (fun hfalse => nomatch hfalse),
      dropLeading_id _ hhead, dropTrailing_id _ hlast]
  · obtain ⟨hall, hnc, hhead, hlast⟩ := sanitizeSlug_props s
    rw [slugShape]
    simp only [Bool.and_eq_true]
    refine ⟨⟨⟨hall, ?_⟩, ?_⟩, hnc⟩
    · cases hh : (Utils.sanitizeSlug s).head? with
      | none => rfl
      | some c =>
        show isAlnumLower c = true
        exact isAlnumLower_of_slug_ne c
          (List.all_eq_true.mp hall c (List.mem_of_mem_head? hh)) (hhead c hh)
    · cases hh : (Utils.sanitizeSlug s).getLast? with
      | none => rfl
      | some c =>
        show isAlnumLower c = true
        exact isAlnumLower_of_slug_ne c
          (List.all_eq_true.mp hall c (List.mem_of_getLast?_eq_some hh)) (hlast c hh)

/-! ### C5 — excerpt lemmas -/

/-- When `lastIndexOf(' ')` reports no space, there is none. -/
theorem lastSpaceIdx_none : ∀ (l : List Char), lastSpaceIdx l = none →
    ∀ k : Nat, l[k]? ≠ some ' '
  | [], _, k => by simp
  | c :: cs, h, k => by
    rw [lastSpaceIdx] at h
    cases hcs : lastSpaceIdx cs with
    | some j' =>
      rw [hcs] at h
      cases h
    | none =>
      rw [hcs] at h
      by_cases hc : c = ' '
      · rw [if_pos hc] at h
        cases h
      · cases k with
        | zero =>
          rw [List.getElem?_cons_zero]
          intro heq
          rw [Option.some.injEq] at heq
          exact hc heq
        | succ k' =>
          rw [List.getElem?_cons_succ]
          exact lastSpaceIdx_none cs hcs k'

/-- `lastIndexOf(' ')` returns an index holding a space with no space after
it. -/
theorem lastSpaceIdx_spec : ∀ (l : List Char) (j : Nat), lastSpaceIdx l = some j →
    l[j]? = some ' ' ∧ ∀ k, j < k → l[k]? ≠ some ' '
  | [], j, h => by simp [lastSpaceIdx] at h
  | c :: cs, j, h => by
    rw [lastSpaceIdx] at h
    cases hcs : lastSpaceIdx cs with
    | some j' =>
      rw [hcs, Option.some.injEq] at h
      obtain ⟨ih1, ih2⟩ := lastSpaceIdx_spec cs j' hcs
      subst h
      refine ⟨by rw [List.getElem?_cons_succ]; exact ih1, fun k hk => ?_⟩
      cases k with
      | zero => omega
      | succ k' =>
        rw [List.getElem?_cons_succ]
        exact ih2 k' (by omega)
    | none =>
      rw [hcs] at h
      by_cases hc : c = ' '
      · rw [if_pos hc, Option.some.injEq] at h
        subst h
        refine ⟨by rw [List.getElem?_cons_zero, hc], fun k hk => ?_⟩
        cases k with
        | zero => omega
        | succ k' =>
          rw [List.getElem?_cons_succ]
          exact lastSpaceIdx_none cs hcs k'
      · rw [if_neg hc] at h
        cases h

/-- A space at index `i` forces `lastIndexOf(' ')` to report an index `≥ i`. -/
theorem lastSpaceIdx_exists : ∀ (l : List Char) (i : Nat), l[i]? = some ' ' →
    ∃ j, lastSpaceIdx l = some j ∧ i ≤ j
  | [], i, h => by simp at h
  | c :: cs, i, h => by
    cases i with
    | zero =>
      rw [List.getElem?_cons_zero, Option.some.injEq] at h
      cases hcs : lastSpaceIdx cs with
      | some j' => exact ⟨j' + 1, by rw [lastSpaceIdx, hcs], by omega⟩
      | none => exact ⟨0, by rw [lastSpaceIdx, hcs, if_pos h], Nat.le_refl 0⟩
    | succ i' =>
      rw [List.getElem?_cons_succ] at h
      obtain ⟨j', hj', hle⟩ := lastSpaceIdx_exists cs i' h
      exact ⟨j' + 1, by rw [lastSpaceIdx, hj'], by omega⟩

/-- The excerpt never exceeds the max length plus the ellipsis marker. -/
theorem generateExcerpt_length_le (body : List Char) :
    (generateExcerpt body 160).length ≤ 163 := by
  rw [generateExcerpt]
  by_cases hle : (plainExcerptText body).length ≤ 160
  · rw [if_pos hle]
    omega
  · rw [if_neg hle]
    have hT : ((plainExcerptText body).take 160).length = 160 := by
      rw [List.length_take]
      omega
    cases hl : lastSpaceIdx ((plainExcerptText body).take 160) with
    | none =>
      rw [List.length_append, hT]
      decide
    | some j =>
      show (if 0 < j then (List.take 160 (plainExcerptText body)).take j ++ ellipsis
        else List.take 160 (plainExcerptText body) ++ ellipsis).length ≤ 163
      by_cases hj : 0 < j
      · rw [if_pos hj, List.length_append, List.length_take, List.length_take]
        simp [ellipsis]
      · rw [if_neg hj, List.length_append, hT]
        decide

/-- C5 counterexample: the claim says an excerpt never splits a word mid-way
when a whitespace boundary exists before the cut point.  The code backs up
with `lastIndexOf(' ')`, which sees only the space character: on a body whose
only whitespace boundary is a tab (at index 80, before the cut at 160) the
excerpt hard-cuts at 160, splitting the second word (characters 159 and 160
are both `b`). -/
theorem excerpt_tab_boundary_cex :
    plainExcerptText tabBody = tabBody ∧
    160 < tabBody.length ∧
    tabBody[80]? = some '\t' ∧ isWs '\t' = true ∧
    generateExcerpt tabBody 160 = tabBody.take 160 ++ ellipsis ∧
    tabBody[159]? = some 'b' ∧ tabBody[160]? = some 'b' ∧ isWs 'b' = false := by
  decide

/-- C5 (amended): for every body the excerpt generated with max length 160
has length at most 163; and when a space (the character `' '`, the only
boundary `lastIndexOf(' ')` can find) occurs at a positive index in the
160-character truncated window, the excerpt backs up to the last space of
the window — it is the window up to that space plus the ellipsis marker,
that position holds a space, and no later window position does. -/
theorem excerpt_length_bound_and_space_backup :
    (∀ body, (generateExcerpt body 160).length ≤ 163) ∧
    (∀ body j, 160 < (plainExcerptText body).length →
      lastSpaceIdx ((plainExcerptText body).take 160) = some j → 0 < j →
      generateExcerpt body 160 = ((plainExcerptText body).take 160).take j ++ ellipsis ∧
      ((plainExcerptText body).take 160)[j]? = some ' ' ∧
      ∀ k, j < k → ((plainExcerptText body).take 160)[k]? ≠ some ' ') ∧
    (∀ body i, ((plainExcerptText body).take 160)[i]? = some ' ' →
      ∃ j, lastSpaceIdx ((plainExcerptText body).take 160) = some j ∧ i ≤ j) := by
  refine ⟨generateExcerpt_length_le, fun body j hlen hl hj => ?_,
    fun body i h => lastSpaceIdx_exists _ i h⟩
  obtain ⟨h1, h2⟩ := lastSpaceIdx_spec _ j hl
  refine ⟨?_, h1, h2⟩
  rw [generateExcerpt, if_neg (by omega), hl]
  show (if 0 < j then (List.take 160 (plainExcerptText body)).take j ++ ellipsis
    else List.take 160 (plainExcerptText body) ++ ellipsis) =
    (List.take 160 (plainExcerptText body)).take j ++ ellipsis
  rw [if_pos hj]

/-- Witness for C5 (amended) at a concrete long body with a space boundary. -/
theorem excerpt_length_bound_and_space_backup_witness :
    generateExcerpt spaceBody 160 =
      ((plainExcerptText spaceBody).take 160).take 1 ++ ellipsis ∧
    ((plainExcerptText spaceBody).take 160)[1]? = some ' ' :=
  ⟨(excerpt_length_bound_and_space_backup.2.1 spaceBody 1 (by decide) (by decide)
      (by decide)).1,
   (excerpt_length_bound_and_space_backup.2.1 spaceBody 1 (by decide) (by decide)
      (by decide)).2.1⟩
